import Mathlib

/-!
Verification development for the provenance envelope codec and
chain-verification engine of `src/src/lib.rs` (crate `provenance-rs`).

Documents are modelled as `List Char`.  The external collaborators —
the ed25519 signature scheme (`ed25519_dalek`) and the HTTP key
directory (`reqwest`) — are modelled as explicit parameters: a
`Crypto` structure carrying the signing/verifying operations together
with their contracts, and a `fetch` function standing for the GET +
JSON-decode round trip of `get_verifying_key_from_url`.  The URL-safe
padded base64 codec of the `base64` crate is modelled concretely by
`b64EncodeList` / `b64DecodeList`.  The compiled-in protocol version
`env!("CARGO_PKG_VERSION")` is a parameter `ver` shared by `sign` and
`verify`, exactly as both read the same constant in the source.
-/

namespace Provenance

/-- Model of Rust `str::split_once(c)`: split at the first occurrence of
`c`, neither half containing that occurrence; `none` if `c` is absent. -/
def splitOnce (c : Char) : List Char → Option (List Char × List Char)
  | [] => none
  | a :: rest =>
    if a = c then some ([], rest)
    else
      match splitOnce c rest with
      | none => none
      | some (l, r) => some (a :: l, r)

/-- Model of Rust `str::split(c)` collected into a vector: split on every
occurrence of `c`, keeping empty tokens (so the result is never empty). -/
def splitChar (c : Char) : List Char → List (List Char)
  | [] => [[]]
  | a :: rest =>
    if a = c then [] :: splitChar c rest
    else
      match splitChar c rest with
      | [] => [[a]]
      | t :: ts => (a :: t) :: ts

/-- Model of Rust `str::lines().count()`: lines are separated by the
newline character and a final newline does not open an extra empty line. -/
def linesCount : List Char → Nat
  | [] => 0
  | a :: rest =>
    if a = '\n' then 1 + linesCount rest
    else if rest = [] then 1 else linesCount rest

/-- UTF-8 encoding of one character (model of Rust string bytes). -/
def utf8EncodeChar (ch : Char) : List Nat :=
  let n := ch.toNat
  if n < 128 then [n]
  else if n < 2048 then [192 + n / 64, 128 + n % 64]
  else if n < 65536 then [224 + n / 4096, 128 + n / 64 % 64, 128 + n % 64]
  else [240 + n / 262144, 128 + n / 4096 % 64, 128 + n / 64 % 64, 128 + n % 64]

/-- Model of Rust `str::as_bytes()`: the UTF-8 bytes of a string. -/
def utf8Bytes (s : List Char) : List Nat :=
  (s.map utf8EncodeChar).flatten

/-- The URL-safe base64 alphabet used by the `base64` crate engine
`general_purpose::URL_SAFE`. -/
def b64Alphabet : List Char :=
  ("ABCDEFGHIJKLMNOPQRSTUVWXYZabcdefghijklmnopqrstuvwxyz0123456789-_").toList

/-- Digit of the URL-safe base64 alphabet (defined for indices below 64). -/
def b64Char (n : Nat) : Char :=
  b64Alphabet.getD n 'A'

/-- Value of a base64 digit: its index in the URL-safe alphabet. -/
def b64Val (ch : Char) : Option Nat :=
  b64Alphabet.findIdx? (fun c => c == ch)

/-- Model of `URL_SAFE.encode`: URL-safe base64 with padding.  Groups of
three bytes become four digits; a final group of one or two bytes is
padded with `=` to a four-character block. -/
def b64EncodeList : List Nat → List Char
  | [] => []
  | [b1] => [b64Char (b1 / 4), b64Char (b1 % 4 * 16), '=', '=']
  | [b1, b2] => [b64Char (b1 / 4), b64Char (b1 % 4 * 16 + b2 / 16), b64Char (b2 % 16 * 4), '=']
  | b1 :: b2 :: b3 :: rest =>
    b64Char (b1 / 4) :: b64Char (b1 % 4 * 16 + b2 / 16) :: b64Char (b2 % 16 * 4 + b3 / 64) ::
      b64Char (b3 % 64) :: b64EncodeList rest

/-- Model of `URL_SAFE.decode`: canonical padded URL-safe base64.  The
input must consist of four-character blocks; `=` padding may appear only
at the end and unused trailing bits must be zero (the engine is
configured with canonical padding and without `decode_allow_trailing_bits`). -/
def b64DecodeList : List Char → Option (List Nat)
  | [] => some []
  | c1 :: c2 :: c3 :: c4 :: rest =>
    if rest = [] ∧ c3 = '=' ∧ c4 = '=' then
      match b64Val c1, b64Val c2 with
      | some v1, some v2 => if v2 % 16 = 0 then some [v1 * 4 + v2 / 16] else none
      | _, _ => none
    else if rest = [] ∧ c4 = '=' then
      match b64Val c1, b64Val c2, b64Val c3 with
      | some v1, some v2, some v3 =>
        if v3 % 4 = 0 then some [v1 * 4 + v2 / 16, v2 % 16 * 16 + v3 / 4] else none
      | _, _, _ => none
    else
      match b64Val c1, b64Val c2, b64Val c3, b64Val c4, b64DecodeList rest with
      | some v1, some v2, some v3, some v4, some bytes =>
        some ((v1 * 4 + v2 / 16) :: (v2 % 16 * 16 + v3 / 4) :: (v3 % 4 * 64 + v4) :: bytes)
      | _, _, _, _, _ => none
  | _ => none

/-- Abstract model of the ed25519 operations of `ed25519_dalek` used by
the source: deterministic signing, the verifying key of a signing key,
signature verification, and `VerifyingKey::from_bytes` (which can reject
invalid point encodings).  Keys are opaque naturals; the contract fields
record the facts the crate guarantees: signatures are 64 bytes
(`SIGNATURE_LENGTH`) and a signature made with a key verifies under that
key's verifying key. -/
structure Crypto where
  sign : Nat → List Nat → List Nat
  publicKey : Nat → Nat
  verify : Nat → List Nat → List Nat → Bool
  keyFromBytes : List Nat → Option Nat
  sign_length : ∀ k m, (sign k m).length = 64
  sign_bytes : ∀ k m b, b ∈ sign k m → b < 256
  verify_sign : ∀ k m, verify (publicKey k) m (sign k m) = true

/-- Model of `SignerDetails` (src/src/lib.rs lines 74-78): the record
returned on successful verification.  It has exactly two fields. -/
structure SignerDetails where
  verification_url : List Char
  verification_key : Nat
deriving DecidableEq

/-- Model of `SignerDetailsFromServer` (src/src/lib.rs lines 80-85): the
JSON payload returned by the key directory. -/
structure SignerDetailsFromServer where
  verification_url : List Char
  verification_key_b64 : List Char
  metadata : List (List Char × List Char)
deriving DecidableEq

/-- The distinct failure classes of `verify`, one per early-return site
in src/src/lib.rs lines 226-300 (the source carries them as `anyhow`
message strings). -/
inductive VerifyError where
  | notAnEnvelope
  | malformedHeader
  | emptyUrl
  | emptySignature
  | badPreamble
  | badVersion
  | badPostamble
  | badSignatureEncoding
  | keyResolutionFailed
  | signatureInvalid
deriving DecidableEq

/-- Model of `anyhow::Result<SignerDetails>` as returned by `verify`. -/
inductive VerifyResult where
  | ok (details : SignerDetails)
  | error (e : VerifyError)
deriving DecidableEq

def PROVENANCE_PREAMBLE : List Char := "~~🔏".toList

def PROVENANCE_POSTAMBLE : List Char := "🔏~~".toList

/-- Model of `TryFrom<Base64Signature> for Signature` (src/src/lib.rs
lines 98-127): base64-decode, require exactly `SIGNATURE_LENGTH` (64)
bytes; `Signature::from_bytes` itself cannot fail. -/
def base64SignatureTryInto (s : List Char) : Option (List Nat) :=
  match b64DecodeList s with
  | none => none
  | some bytes => if bytes.length = 64 then some bytes else none

/-- Model of `TryFrom<Base64VerifyingKey> for VerifyingKey`
(src/src/lib.rs lines 131-160): base64-decode, require exactly 32 bytes,
then `VerifyingKey::from_bytes` which can fail. -/
def base64VerifyingKeyTryInto (c : Crypto) (s : List Char) : Option Nat :=
  match b64DecodeList s with
  | none => none
  | some bytes => if bytes.length = 32 then c.keyFromBytes bytes else none

/-- Model of `get_verifying_key_from_url` (src/src/lib.rs lines 196-212).
`fetch` stands for the GET request plus JSON decoding; `none` covers
network errors, non-success statuses and malformed payloads. -/
def get_verifying_key_from_url (c : Crypto)
    (fetch : List Char → Option SignerDetailsFromServer) (url : List Char) : Option Nat :=
  match fetch url with
  | none => none
  | some signer_details => base64VerifyingKeyTryInto c signer_details.verification_key_b64

/-- The body of `verify` after the header has been split into exactly
five space-separated words (src/src/lib.rs lines 244-308), in source
order: empty-url check, empty-signature check, preamble, version,
postamble, signature decoding, key resolution, signature verification. -/
def verifyTokens (c : Crypto) (fetch : List Char → Option SignerDetailsFromServer)
    (ver preamble version url signature_b64 postamble doc : List Char) :
    VerifyResult × List Char :=
  if url = [] then (VerifyResult.error VerifyError.emptyUrl, doc)
  else if signature_b64 = [] then (VerifyResult.error VerifyError.emptySignature, doc)
  else if preamble ≠ PROVENANCE_PREAMBLE then (VerifyResult.error VerifyError.badPreamble, doc)
  else if version ≠ ver then (VerifyResult.error VerifyError.badVersion, doc)
  else if postamble ≠ PROVENANCE_POSTAMBLE then (VerifyResult.error VerifyError.badPostamble, doc)
  else
    match base64SignatureTryInto signature_b64 with
    | none => (VerifyResult.error VerifyError.badSignatureEncoding, doc)
    | some signature =>
      match get_verifying_key_from_url c fetch url with
      | none => (VerifyResult.error VerifyError.keyResolutionFailed, doc)
      | some verification_key =>
        if c.verify verification_key (utf8Bytes doc) signature then
          (VerifyResult.ok ⟨url, verification_key⟩, doc)
        else (VerifyResult.error VerifyError.signatureInvalid, doc)

/-- Model of `verify` (src/src/lib.rs lines 225-309): split at the first
newline; without one, fail with the input itself as remainder.  Split
the first line on spaces; with anything other than exactly five words,
fail.  Then run the five-token checks.  In every branch after the first
the remainder is the body found after the first newline. -/
def verify (c : Crypto) (fetch : List Char → Option SignerDetailsFromServer)
    (ver : List Char) (signed_doc : List Char) : VerifyResult × List Char :=
  match splitOnce '\n' signed_doc with
  | none => (VerifyResult.error VerifyError.notAnEnvelope, signed_doc)
  | some (first, doc) =>
    match splitChar ' ' first with
    | [preamble, version, url, signature_b64, postamble] =>
      verifyTokens c fetch ver preamble version url signature_b64 postamble doc
    | _ => (VerifyResult.error VerifyError.malformedHeader, doc)

/-- The loop of `verify_all` (src/src/lib.rs lines 319-337) with an
explicit iteration bound.  Each continuing iteration strictly decreases
`linesCount`, so any fuel exceeding `linesCount doc` makes the bound
unreachable (`verify_all_go_fuel`); the bound only makes the recursion
structural so that the function evaluates by reduction. -/
def verify_all_go (c : Crypto) (fetch : List Char → Option SignerDetailsFromServer)
    (ver : List Char) : Nat → List Char → List VerifyResult × List Char
  | 0, doc => ([], doc)
  | fuel + 1, doc =>
    let verified := verify c fetch ver doc
    if linesCount doc = linesCount verified.2 then ([], doc)
    else
      let rest := verify_all_go c fetch ver fuel verified.2
      (verified.1 :: rest.1, rest.2)

/-- Model of `verify_all` (src/src/lib.rs lines 314-341): repeatedly
verify the current document; stop, without recording the final result,
as soon as the verified remainder has the same number of lines as the
current document; otherwise record the layer's result and continue on
the remainder. -/
def verify_all (c : Crypto) (fetch : List Char → Option SignerDetailsFromServer)
    (ver : List Char) (signed_doc : List Char) : List VerifyResult × List Char :=
  verify_all_go c fetch ver (linesCount signed_doc + 1) signed_doc

/-- Model of `format_doc` (src/src/lib.rs lines 350-355). -/
def format_doc (ver url encoded_signature doc : List Char) : List Char :=
  PROVENANCE_PREAMBLE ++ ' ' :: ver ++ ' ' :: url ++ ' ' :: encoded_signature ++
    ' ' :: PROVENANCE_POSTAMBLE ++ '\n' :: doc

/-- Model of `sign` (src/src/lib.rs lines 343-348). -/
def sign (c : Crypto) (ver : List Char) (doc : List Char) (signing_key : Nat)
    (url : List Char) : List Char :=
  let signature := c.sign signing_key (utf8Bytes doc)
  let encoded_signature := b64EncodeList signature
  format_doc ver url encoded_signature doc

/-- Iterated signing, head of the list signing last (outermost). -/
def chainSign (c : Crypto) (ver : List Char) (signers : List (Nat × List Char))
    (b : List Char) : List Char :=
  match signers with
  | [] => b
  | (k, u) :: rest => sign c ver (chainSign c ver rest b) k u

/-- The remainder rule of `verify` stated as a function of the input:
the body after the first newline when one exists, the input unchanged
otherwise. -/
def remainderOf (signed_doc : List Char) : List Char :=
  match splitOnce '\n' signed_doc with
  | none => signed_doc
  | some (_, doc) => doc

/-- A concrete protocol version string for witnesses. -/
def toyVer : List Char := "0.1.0".toList

/-- A concrete base64-encoded 32-byte verifying key for witnesses. -/
def toyKeyB64 : List Char := b64EncodeList (List.replicate 32 0)

/-- A key directory resolving every url to the all-zero key, returning
empty metadata. -/
def toyFetch : List Char → Option SignerDetailsFromServer :=
  fun u => some ⟨u, toyKeyB64, []⟩

/-- A key directory identical to `toyFetch` except for the metadata it
attaches to the response. -/
def toyFetchMeta : List Char → Option SignerDetailsFromServer :=
  fun u => some ⟨u, toyKeyB64, [("k".toList, "v".toList)]⟩

/-- A concrete instance of the abstract signature scheme, used to
evaluate the model at specific inputs. -/
def toyCrypto : Crypto where
  sign := fun _ _ => List.replicate 64 0
  publicKey := fun k => k
  verify := fun _ _ s => s == List.replicate 64 0
  keyFromBytes := fun _ => some 0
  sign_length := by intro k m; simp
  sign_bytes := by intro k m b hb; simp at hb; omega
  verify_sign := by intro k m; simp

/-! ### Properties of the string primitives -/

theorem splitOnce_eq_none {c : Char} {s : List Char} : splitOnce c s = none ↔ c ∉ s := by
  induction s with
  | nil => simp [splitOnce]
  | cons a rest ih =>
    simp only [splitOnce]
    by_cases hac : a = c
    · simp [hac]
    · rw [if_neg hac]
      cases hr : splitOnce c rest with
      | none =>
        simp only [hr, true_iff] at ih ⊢
        simp only [List.mem_cons, not_or]
        exact ⟨fun hh => hac hh.symm, ih⟩
      | some p =>
        obtain ⟨l, r⟩ := p
        have : c ∈ rest := by
          by_contra hmem
          rw [ih.mpr hmem] at hr
          cases hr
        simp [this]

theorem splitOnce_eq_some {c : Char} {s l r : List Char} (h : splitOnce c s = some (l, r)) :
    s = l ++ c :: r ∧ c ∉ l := by
  induction s generalizing l r with
  | nil => simp [splitOnce] at h
  | cons a rest ih =>
    simp only [splitOnce] at h
    by_cases hac : a = c
    · rw [if_pos hac] at h
      simp only [Option.some.injEq, Prod.mk.injEq] at h
      obtain ⟨h1, h2⟩ := h
      subst h1; subst h2; subst hac
      exact ⟨rfl, by simp⟩
    · rw [if_neg hac] at h
      cases hr : splitOnce c rest with
      | none => rw [hr] at h; cases h
      | some p =>
        obtain ⟨l', r'⟩ := p
        rw [hr] at h
        simp only [Option.some.injEq, Prod.mk.injEq] at h
        obtain ⟨h1, h2⟩ := h
        subst h1; subst h2
        obtain ⟨hs, hn⟩ := ih hr
        refine ⟨by rw [hs]; simp, ?_⟩
        intro hmem
        rcases List.mem_cons.mp hmem with hh | hh
        · exact hac hh.symm
        · exact hn hh

theorem splitOnce_append {c : Char} {first rest : List Char} (h : c ∉ first) :
    splitOnce c (first ++ c :: rest) = some (first, rest) := by
  induction first with
  | nil => simp [splitOnce]
  | cons a t ih =>
    have hac : ¬ a = c := fun hh => h (by simp [hh])
    have ht : c ∉ t := fun hh => h (by simp [hh])
    simp only [List.cons_append, splitOnce, if_neg hac, List.append_eq, ih ht]

theorem splitChar_ne_nil (c : Char) (s : List Char) : splitChar c s ≠ [] := by
  cases s with
  | nil => simp [splitChar]
  | cons a rest =>
    simp only [splitChar]
    by_cases hac : a = c
    · simp [hac]
    · rw [if_neg hac]
      cases hr : splitChar c rest <;> simp

theorem splitChar_no_sep {c : Char} {t : List Char} (h : c ∉ t) : splitChar c t = [t] := by
  induction t with
  | nil => rfl
  | cons a rest ih =>
    have hac : ¬ a = c := fun hh => h (by simp [hh])
    have ht : c ∉ rest := fun hh => h (by simp [hh])
    simp only [splitChar, if_neg hac, ih ht]

theorem splitChar_append {c : Char} {t rest : List Char} (h : c ∉ t) :
    splitChar c (t ++ c :: rest) = t :: splitChar c rest := by
  induction t with
  | nil => simp [splitChar]
  | cons a t' ih =>
    have hac : ¬ a = c := fun hh => h (by simp [hh])
    have ht : c ∉ t' := fun hh => h (by simp [hh])
    simp only [List.cons_append, splitChar, if_neg hac, List.append_eq, ih ht]

theorem linesCount_append {first body : List Char} (h : '\n' ∉ first) :
    linesCount (first ++ '\n' :: body) = 1 + linesCount body := by
  induction first with
  | nil => simp [linesCount]
  | cons a t ih =>
    have han : ¬ a = '\n' := fun hh => h (by simp [hh])
    have ht : '\n' ∉ t := fun hh => h (by simp [hh])
    have hne : ¬ t ++ '\n' :: body = [] := by simp
    simp only [List.cons_append, linesCount, if_neg han, List.append_eq, if_neg hne, ih ht]

/-! ### Properties of the base64 codec -/

theorem b64Val_b64Char {n : Nat} (h : n < 64) : b64Val (b64Char n) = some n := by
  have hfin : ∀ m : Fin 64, b64Val (b64Char m.val) = some m.val := by decide
  exact hfin ⟨n, h⟩

theorem b64Char_mem (n : Nat) : b64Char n ∈ b64Alphabet := by
  rcases Nat.lt_or_ge n 64 with h | h
  · have hfin : ∀ m : Fin 64, b64Char m.val ∈ b64Alphabet := by decide
    exact hfin ⟨n, h⟩
  · have hlen : b64Alphabet.length ≤ n := by
      have : b64Alphabet.length = 64 := by decide
      omega
    rw [b64Char, List.getD_eq_default _ _ hlen]
    decide

theorem b64Char_ne (n : Nat) : b64Char n ≠ ' ' ∧ b64Char n ≠ '\n' ∧ b64Char n ≠ '=' := by
  have h := b64Char_mem n
  refine ⟨?_, ?_, ?_⟩ <;> (intro he; rw [he] at h; revert h; decide)

theorem b64EncodeList_chars {l : List Nat} {ch : Char} (h : ch ∈ b64EncodeList l) :
    ch = '=' ∨ ∃ n, ch = b64Char n := by
  match l with
  | [] => simp [b64EncodeList] at h
  | [b1] =>
    simp only [b64EncodeList, List.mem_cons, List.not_mem_nil, or_false] at h
    rcases h with h | h | h | h
    · exact Or.inr ⟨_, h⟩
    · exact Or.inr ⟨_, h⟩
    · exact Or.inl h
    · exact Or.inl h
  | [b1, b2] =>
    simp only [b64EncodeList, List.mem_cons, List.not_mem_nil, or_false] at h
    rcases h with h | h | h | h
    · exact Or.inr ⟨_, h⟩
    · exact Or.inr ⟨_, h⟩
    · exact Or.inr ⟨_, h⟩
    · exact Or.inl h
  | b1 :: b2 :: b3 :: rest =>
    simp only [b64EncodeList, List.mem_cons] at h
    rcases h with h | h | h | h | h
    · exact Or.inr ⟨_, h⟩
    · exact Or.inr ⟨_, h⟩
    · exact Or.inr ⟨_, h⟩
    · exact Or.inr ⟨_, h⟩
    · exact b64EncodeList_chars h
termination_by l.length

theorem b64EncodeList_no_space_newline {l : List Nat} {ch : Char}
    (h : ch ∈ b64EncodeList l) : ch ≠ ' ' ∧ ch ≠ '\n' := by
  rcases b64EncodeList_chars h with h | ⟨n, hn⟩
  · subst h; exact ⟨by decide, by decide⟩
  · subst hn; exact ⟨(b64Char_ne n).1, (b64Char_ne n).2.1⟩

theorem b64EncodeList_ne_nil {l : List Nat} (h : l ≠ []) : b64EncodeList l ≠ [] := by
  match l with
  | [] => exact absurd rfl h
  | [b1] => simp [b64EncodeList]
  | [b1, b2] => simp [b64EncodeList]
  | b1 :: b2 :: b3 :: rest => simp [b64EncodeList]

theorem b64_roundtrip (l : List Nat) (h : ∀ b ∈ l, b < 256) :
    b64DecodeList (b64EncodeList l) = some l := by
  match l with
  | [] => rfl
  | [b1] =>
    have hb1 : b1 < 256 := h b1 (by simp)
    have h1 : b1 / 4 < 64 := by omega
    have h2 : b1 % 4 * 16 < 64 := by omega
    simp only [b64EncodeList, b64DecodeList]
    rw [b64Val_b64Char h1, b64Val_b64Char h2]
    have h3 : b1 % 4 * 16 % 16 = 0 := by omega
    simp [h3]
    omega
  | [b1, b2] =>
    have hb1 : b1 < 256 := h b1 (by simp)
    have hb2 : b2 < 256 := h b2 (by simp)
    have h1 : b1 / 4 < 64 := by omega
    have h2 : b1 % 4 * 16 + b2 / 16 < 64 := by omega
    have h3 : b2 % 16 * 4 < 64 := by omega
    simp only [b64EncodeList, b64DecodeList]
    rw [if_neg (fun hc => (b64Char_ne (b2 % 16 * 4)).2.2 hc.2.1)]
    rw [b64Val_b64Char h1, b64Val_b64Char h2, b64Val_b64Char h3]
    have h4 : b2 % 16 * 4 % 4 = 0 := by omega
    simp [h4]
    omega
  | b1 :: b2 :: b3 :: rest =>
    have hb1 : b1 < 256 := h b1 (by simp)
    have hb2 : b2 < 256 := h b2 (by simp)
    have hb3 : b3 < 256 := h b3 (by simp)
    have h1 : b1 / 4 < 64 := by omega
    have h2 : b1 % 4 * 16 + b2 / 16 < 64 := by omega
    have h3 : b2 % 16 * 4 + b3 / 64 < 64 := by omega
    have h4 : b3 % 64 < 64 := by omega
    have e1 : b1 / 4 * 4 + (b1 % 4 * 16 + b2 / 16) / 16 = b1 := by omega
    have e2 : (b1 % 4 * 16 + b2 / 16) % 16 * 16 + (b2 % 16 * 4 + b3 / 64) / 4 = b2 := by omega
    have e3 : (b2 % 16 * 4 + b3 / 64) % 4 * 64 + b3 % 64 = b3 := by omega
    have ih : b64DecodeList (b64EncodeList rest) = some rest :=
      b64_roundtrip rest (fun b hb => h b (by simp [hb]))
    by_cases hr : rest = []
    · subst hr
      simp only [b64EncodeList, b64DecodeList]
      rw [if_neg (fun hc => (b64Char_ne (b2 % 16 * 4 + b3 / 64)).2.2 hc.2.1)]
      rw [if_neg (fun hc => (b64Char_ne (b3 % 64)).2.2 hc.2)]
      rw [b64Val_b64Char h1, b64Val_b64Char h2, b64Val_b64Char h3, b64Val_b64Char h4]
      simp only [b64DecodeList, Option.some.injEq, List.cons.injEq]
      exact ⟨e1, e2, e3, trivial⟩
    · have hne : b64EncodeList rest ≠ [] := b64EncodeList_ne_nil hr
      simp only [b64EncodeList, b64DecodeList]
      rw [if_neg (fun hc => hne hc.1), if_neg (fun hc => hne hc.1)]
      rw [b64Val_b64Char h1, b64Val_b64Char h2, b64Val_b64Char h3, b64Val_b64Char h4, ih]
      simp only [Option.some.injEq, List.cons.injEq]
      exact ⟨e1, e2, e3, trivial⟩
termination_by l.length

/-! ### The remainder rule of `verify` and the structure of `verify_all` -/

theorem verifyTokens_snd (c : Crypto) (fetch : List Char → Option SignerDetailsFromServer)
    (ver p v u s q doc : List Char) :
    (verifyTokens c fetch ver p v u s q doc).2 = doc := by
  unfold verifyTokens
  repeat' split
  all_goals rfl

theorem verify_snd (c : Crypto) (fetch : List Char → Option SignerDetailsFromServer)
    (ver signed_doc : List Char) :
    (verify c fetch ver signed_doc).2 = remainderOf signed_doc := by
  unfold verify remainderOf
  split
  · rfl
  · split
    · apply verifyTokens_snd
    · rfl

theorem remainderOf_eq_some {doc first body : List Char}
    (h : splitOnce '\n' doc = some (first, body)) : remainderOf doc = body := by
  rw [remainderOf, h]

theorem remainderOf_eq_none {doc : List Char}
    (h : splitOnce '\n' doc = none) : remainderOf doc = doc := by
  rw [remainderOf, h]

theorem linesCount_verify_eq_iff (c : Crypto) (fetch : List Char → Option SignerDetailsFromServer)
    (ver doc : List Char) :
    linesCount doc = linesCount (verify c fetch ver doc).2 ↔ splitOnce '\n' doc = none := by
  rw [verify_snd]
  cases h : splitOnce '\n' doc with
  | none => rw [remainderOf_eq_none h]; simp
  | some p =>
    obtain ⟨first, body⟩ := p
    rw [remainderOf_eq_some h]
    obtain ⟨hs, hn⟩ := splitOnce_eq_some h
    rw [hs, linesCount_append hn]
    exact iff_of_false (by omega) (by simp)

theorem verify_all_go_fuel (c : Crypto) (fetch : List Char → Option SignerDetailsFromServer)
    (ver : List Char) : ∀ (f : Nat) (doc : List Char), linesCount doc < f →
    verify_all_go c fetch ver f doc = verify_all c fetch ver doc := by
  intro f
  induction f with
  | zero => intro doc hf; omega
  | succ n ih =>
    intro doc hf
    rw [verify_all]
    by_cases hg : linesCount doc = linesCount (verify c fetch ver doc).2
    · simp only [verify_all_go, if_pos hg]
    · have hsome : splitOnce '\n' doc ≠ none := fun hh =>
        hg ((linesCount_verify_eq_iff c fetch ver doc).mpr hh)
      cases hs : splitOnce '\n' doc with
      | none => exact absurd hs hsome
      | some pr =>
        obtain ⟨first, body⟩ := pr
        have h2 : (verify c fetch ver doc).2 = body := by
          rw [verify_snd, remainderOf_eq_some hs]
        obtain ⟨hdoc, hnl⟩ := splitOnce_eq_some hs
        have hlc : linesCount doc = linesCount body + 1 := by
          rw [hdoc, linesCount_append hnl]; omega
        simp only [verify_all_go, if_neg hg]
        rw [h2]
        have e1 : verify_all_go c fetch ver n body = verify_all c fetch ver body :=
          ih body (by omega)
        have e2 : verify_all_go c fetch ver (linesCount doc) body =
            verify_all c fetch ver body := by
          rw [hlc, verify_all]
        rw [e1, e2]

theorem verify_all_break {c : Crypto} {fetch : List Char → Option SignerDetailsFromServer}
    {ver doc : List Char} (h : splitOnce '\n' doc = none) :
    verify_all c fetch ver doc = ([], doc) := by
  have hg : linesCount doc = linesCount (verify c fetch ver doc).2 :=
    (linesCount_verify_eq_iff c fetch ver doc).mpr h
  rw [verify_all]
  simp only [verify_all_go, if_pos hg]

theorem verify_all_peel {c : Crypto} {fetch : List Char → Option SignerDetailsFromServer}
    {ver doc first body : List Char} (h : splitOnce '\n' doc = some (first, body)) :
    verify_all c fetch ver doc =
      ((verify c fetch ver doc).1 :: (verify_all c fetch ver body).1,
        (verify_all c fetch ver body).2) := by
  have hg : ¬ linesCount doc = linesCount (verify c fetch ver doc).2 := by
    intro hh
    have := (linesCount_verify_eq_iff c fetch ver doc).mp hh
    simp [this] at h
  have h2 : (verify c fetch ver doc).2 = body := by
    rw [verify_snd, remainderOf_eq_some h]
  obtain ⟨hdoc, hnl⟩ := splitOnce_eq_some h
  have hlc : linesCount doc = linesCount body + 1 := by
    rw [hdoc, linesCount_append hnl]; omega
  rw [verify_all]
  simp only [verify_all_go, if_neg hg]
  rw [h2, hlc, verify_all]

/-! ### Decomposing a well-formed header line -/

theorem mem_header {x : Char} {p v u s q : List Char}
    (h : x ∈ p ++ ' ' :: v ++ ' ' :: u ++ ' ' :: s ++ ' ' :: q) :
    x = ' ' ∨ x ∈ p ∨ x ∈ v ∨ x ∈ u ∨ x ∈ s ∨ x ∈ q := by
  simp only [List.mem_append, List.mem_cons] at h
  tauto

theorem header_tokens {p v u s q : List Char}
    (hp : ' ' ∉ p) (hv : ' ' ∉ v) (hu : ' ' ∉ u) (hs : ' ' ∉ s) (hq : ' ' ∉ q) :
    splitChar ' ' (p ++ ' ' :: v ++ ' ' :: u ++ ' ' :: s ++ ' ' :: q) = [p, v, u, s, q] := by
  simp only [List.append_assoc, List.cons_append]
  rw [splitChar_append hp, splitChar_append hv, splitChar_append hu, splitChar_append hs,
    splitChar_no_sep hq]

theorem header_newline_split {p v u s q body : List Char}
    (hp : '\n' ∉ p) (hv : '\n' ∉ v) (hu : '\n' ∉ u) (hs : '\n' ∉ s) (hq : '\n' ∉ q) :
    splitOnce '\n' (p ++ ' ' :: v ++ ' ' :: u ++ ' ' :: s ++ ' ' :: q ++ '\n' :: body) =
      some (p ++ ' ' :: v ++ ' ' :: u ++ ' ' :: s ++ ' ' :: q, body) := by
  have hassoc : p ++ ' ' :: v ++ ' ' :: u ++ ' ' :: s ++ ' ' :: q ++ '\n' :: body =
      (p ++ ' ' :: v ++ ' ' :: u ++ ' ' :: s ++ ' ' :: q) ++ '\n' :: body := by
    simp [List.append_assoc]
  rw [hassoc]
  apply splitOnce_append
  intro hmem
  rcases mem_header hmem with h | h | h | h | h | h
  · exact absurd h (by decide)
  · exact hp h
  · exact hv h
  · exact hu h
  · exact hs h
  · exact hq h

/-- `verify` on a document made of a five-token header and a body reduces
to the five-token checks with the body as remainder. -/
theorem verify_header {c : Crypto} {fetch : List Char → Option SignerDetailsFromServer}
    {ver p v u s q body : List Char}
    (hp : ' ' ∉ p ∧ '\n' ∉ p) (hv : ' ' ∉ v ∧ '\n' ∉ v) (hu : ' ' ∉ u ∧ '\n' ∉ u)
    (hs : ' ' ∉ s ∧ '\n' ∉ s) (hq : ' ' ∉ q ∧ '\n' ∉ q) :
    verify c fetch ver (p ++ ' ' :: v ++ ' ' :: u ++ ' ' :: s ++ ' ' :: q ++ '\n' :: body) =
      verifyTokens c fetch ver p v u s q body := by
  unfold verify
  simp only [header_newline_split hp.2 hv.2 hu.2 hs.2 hq.2,
    header_tokens hp.1 hv.1 hu.1 hs.1 hq.1]

theorem format_doc_eq (ver url esig doc : List Char) :
    format_doc ver url esig doc =
      PROVENANCE_PREAMBLE ++ ' ' :: ver ++ ' ' :: url ++ ' ' :: esig ++
        ' ' :: PROVENANCE_POSTAMBLE ++ '\n' :: doc := rfl

theorem preamble_chars : ' ' ∉ PROVENANCE_PREAMBLE ∧ '\n' ∉ PROVENANCE_PREAMBLE := by decide

theorem postamble_chars : ' ' ∉ PROVENANCE_POSTAMBLE ∧ '\n' ∉ PROVENANCE_POSTAMBLE := by decide

theorem b64EncodeList_not_mem (l : List Nat) :
    ' ' ∉ b64EncodeList l ∧ '\n' ∉ b64EncodeList l :=
  ⟨fun hm => (b64EncodeList_no_space_newline hm).1 rfl,
    fun hm => (b64EncodeList_no_space_newline hm).2 rfl⟩

/-- Signing then verifying succeeds and recovers the url, the public key
of the signing key, and the body, provided the url is token-shaped, the
version string is token-shaped, and (the single-layer trust hypothesis)
the key directory resolves the url to the signing key's public key. -/
theorem verify_sign_eq {c : Crypto} {fetch : List Char → Option SignerDetailsFromServer}
    {ver b u : List Char} {k : Nat}
    (hver : ' ' ∉ ver ∧ '\n' ∉ ver)
    (hu : u ≠ [] ∧ ' ' ∉ u ∧ '\n' ∉ u)
    (hkey : get_verifying_key_from_url c fetch u = some (c.publicKey k)) :
    verify c fetch ver (sign c ver b k u) = (VerifyResult.ok ⟨u, c.publicKey k⟩, b) := by
  have hsig_ne : c.sign k (utf8Bytes b) ≠ [] := by
    have hl := c.sign_length k (utf8Bytes b)
    intro hh
    rw [hh] at hl
    simp at hl
  have hesig_ne : b64EncodeList (c.sign k (utf8Bytes b)) ≠ [] := b64EncodeList_ne_nil hsig_ne
  show verify c fetch ver
      (format_doc ver u (b64EncodeList (c.sign k (utf8Bytes b))) b) = _
  rw [format_doc_eq]
  rw [verify_header preamble_chars ⟨hver.1, hver.2⟩ ⟨hu.2.1, hu.2.2⟩
    (b64EncodeList_not_mem (c.sign k (utf8Bytes b))) postamble_chars]
  unfold verifyTokens
  rw [if_neg (fun hh => hu.1 hh)]
  rw [if_neg (fun hh => hesig_ne hh)]
  rw [if_neg (fun hh : PROVENANCE_PREAMBLE ≠ PROVENANCE_PREAMBLE => hh rfl)]
  rw [if_neg (fun hh : ver ≠ ver => hh rfl)]
  rw [if_neg (fun hh : PROVENANCE_POSTAMBLE ≠ PROVENANCE_POSTAMBLE => hh rfl)]
  have hdec : base64SignatureTryInto (b64EncodeList (c.sign k (utf8Bytes b))) =
      some (c.sign k (utf8Bytes b)) := by
    rw [base64SignatureTryInto,
      b64_roundtrip (c.sign k (utf8Bytes b)) (fun x hx => c.sign_bytes k (utf8Bytes b) x hx)]
    simp [c.sign_length k (utf8Bytes b)]
  rw [hdec, hkey]
  simp [c.verify_sign k (utf8Bytes b)]

theorem verify_all_snd_no_newline (c : Crypto)
    (fetch : List Char → Option SignerDetailsFromServer) (ver doc : List Char) :
    splitOnce '\n' (verify_all c fetch ver doc).2 = none := by
  cases h : splitOnce '\n' doc with
  | none => rw [verify_all_break h]; exact h
  | some p =>
    obtain ⟨first, body⟩ := p
    rw [verify_all_peel h]
    have hlen : body.length < doc.length := by
      obtain ⟨hdoc, _⟩ := splitOnce_eq_some h
      rw [hdoc]
      simp only [List.length_append, List.length_cons]
      omega
    exact verify_all_snd_no_newline c fetch ver body
termination_by doc.length

/-! ### The claims -/

/-- C4: `verify` always pairs its result with a remainder; when the
input has no line break the remainder is the unmodified input, and in
every other case — malformed header, empty url or signature, bad
preamble, version or postamble, undecodable signature, key-resolution
failure, invalid signature, and success alike — the remainder is the
body found after the first line break (`remainderOf` is by definition
exactly that case split). -/
theorem c4_asymmetric_remainder (c : Crypto)
    (fetch : List Char → Option SignerDetailsFromServer) (ver signed_doc : List Char) :
    (verify c fetch ver signed_doc).2 = remainderOf signed_doc :=
  verify_snd c fetch ver signed_doc

/-- C5: a failed layer is recorded in its slot of the `verify_all`
result — whatever `verify` returned is consed on, success or failure —
and peeling continues on the recovered body; only an input with no line
break (the no-envelope case) stops the loop, and that terminal failure
is not appended to the results. -/
theorem c5_error_propagation (c : Crypto)
    (fetch : List Char → Option SignerDetailsFromServer) (ver doc first body : List Char) :
    (splitOnce '\n' doc = none → verify_all c fetch ver doc = ([], doc)) ∧
    (splitOnce '\n' doc = some (first, body) →
      verify_all c fetch ver doc =
        ((verify c fetch ver doc).1 :: (verify_all c fetch ver body).1,
          (verify_all c fetch ver body).2)) :=
  ⟨fun h => verify_all_break h, fun h => verify_all_peel h⟩

theorem c5_error_propagation_witness :
    verify_all toyCrypto toyFetch toyVer ("a\nb".toList) =
      ((verify toyCrypto toyFetch toyVer ("a\nb".toList)).1 ::
          (verify_all toyCrypto toyFetch toyVer ("b".toList)).1,
        (verify_all toyCrypto toyFetch toyVer ("b".toList)).2) :=
  (c5_error_propagation toyCrypto toyFetch toyVer ("a\nb".toList) ("a".toList)
    ("b".toList)).2 (by decide)

/-- C6: the peeling loop of `verify_all` is well-founded: whenever an
iteration continues (the guard line counts differ), the remainder has
exactly one line fewer than the current document, so any iteration bound
above the line count is enough — `verify_all_go` with any such bound
computes `verify_all`. -/
theorem c6_termination (c : Crypto) (fetch : List Char → Option SignerDetailsFromServer)
    (ver doc : List Char) :
    (linesCount doc ≠ linesCount (verify c fetch ver doc).2 →
      linesCount (verify c fetch ver doc).2 + 1 = linesCount doc) ∧
    (∀ fuel, linesCount doc < fuel →
      verify_all_go c fetch ver fuel doc = verify_all c fetch ver doc) := by
  constructor
  · intro hne
    cases h : splitOnce '\n' doc with
    | none => exact absurd ((linesCount_verify_eq_iff c fetch ver doc).mpr h) hne
    | some p =>
      obtain ⟨first, body⟩ := p
      rw [verify_snd, remainderOf_eq_some h]
      obtain ⟨hdoc, hnl⟩ := splitOnce_eq_some h
      rw [hdoc, linesCount_append hnl]
      omega
  · exact fun f hf => verify_all_go_fuel c fetch ver f doc hf

theorem c6_termination_witness :
    linesCount ("a\nb".toList) ≠
        linesCount (verify toyCrypto toyFetch toyVer ("a\nb".toList)).2 ∧
    linesCount (verify toyCrypto toyFetch toyVer ("a\nb".toList)).2 + 1 =
        linesCount ("a\nb".toList) ∧
    verify_all_go toyCrypto toyFetch toyVer 5 ("a\nb".toList) =
      verify_all toyCrypto toyFetch toyVer ("a\nb".toList) :=
  ⟨by decide,
    (c6_termination toyCrypto toyFetch toyVer ("a\nb".toList)).1 (by decide),
    (c6_termination toyCrypto toyFetch toyVer ("a\nb".toList)).2 5 (by decide)⟩

/-- C3 fails as stated: `verify_all` on the plain unsigned text
"hello\nworld" does not return zero results with the input as remainder —
the loop peels the first line off any multi-line input, recording a
malformed-header failure. -/
theorem c3_no_envelope_counterexample :
    ¬ (verify_all toyCrypto toyFetch toyVer ("hello\nworld".toList) =
        ([], "hello\nworld".toList)) := by decide

/-- C3, amended: `verify_all` on plain text containing no line break
returns zero results and a remainder equal to the input. -/
theorem c3_no_envelope (c : Crypto) (fetch : List Char → Option SignerDetailsFromServer)
    (ver input : List Char) (h : '\n' ∉ input) :
    verify_all c fetch ver input = ([], input) :=
  verify_all_break (splitOnce_eq_none.mpr h)

theorem c3_no_envelope_witness :
    '\n' ∉ ("hello".toList) ∧
    verify_all toyCrypto toyFetch toyVer ("hello".toList) = ([], "hello".toList) :=
  ⟨by decide, c3_no_envelope toyCrypto toyFetch toyVer ("hello".toList) (by decide)⟩

/-- C10: the final remainder returned by `verify_all` never contains a
line break — the loop stops exactly when the current document has no
newline left to split on. -/
theorem c10_remainder_no_newline (c : Crypto)
    (fetch : List Char → Option SignerDetailsFromServer) (ver doc : List Char) :
    splitOnce '\n' (verify_all c fetch ver doc).2 = none :=
  verify_all_snd_no_newline c fetch ver doc

/-- C1: round trip.  Decoding the output of `sign b k u` — splitting off
the header line and splitting it into its five tokens — recovers the url
`u` as the third token, the signature bytes as the base64 decoding of the
fourth token, and the body `b`; and `verify` on that output, when the key
directory resolves `u` to the public key of `k`, succeeds with a record
whose verification key is that public key.  The url is required to be
token-shaped: non-empty (a data-model constraint of the spec) and free of
spaces and newlines, as is the version string. -/
theorem c1_round_trip (c : Crypto) (fetch : List Char → Option SignerDetailsFromServer)
    (ver b u : List Char) (k : Nat)
    (hver : ' ' ∉ ver ∧ '\n' ∉ ver)
    (hu : u ≠ [] ∧ ' ' ∉ u ∧ '\n' ∉ u)
    (hkey : get_verifying_key_from_url c fetch u = some (c.publicKey k)) :
    splitOnce '\n' (sign c ver b k u) =
      some (PROVENANCE_PREAMBLE ++ ' ' :: ver ++ ' ' :: u ++
        ' ' :: b64EncodeList (c.sign k (utf8Bytes b)) ++ ' ' :: PROVENANCE_POSTAMBLE, b) ∧
    splitChar ' ' (PROVENANCE_PREAMBLE ++ ' ' :: ver ++ ' ' :: u ++
        ' ' :: b64EncodeList (c.sign k (utf8Bytes b)) ++ ' ' :: PROVENANCE_POSTAMBLE) =
      [PROVENANCE_PREAMBLE, ver, u, b64EncodeList (c.sign k (utf8Bytes b)),
        PROVENANCE_POSTAMBLE] ∧
    b64DecodeList (b64EncodeList (c.sign k (utf8Bytes b))) = some (c.sign k (utf8Bytes b)) ∧
    verify c fetch ver (sign c ver b k u) = (VerifyResult.ok ⟨u, c.publicKey k⟩, b) := by
  refine ⟨?_, ?_, ?_, ?_⟩
  · show splitOnce '\n' (format_doc ver u (b64EncodeList (c.sign k (utf8Bytes b))) b) = _
    rw [format_doc_eq]
    exact header_newline_split preamble_chars.2 hver.2 hu.2.2 (b64EncodeList_not_mem _).2
      postamble_chars.2
  · exact header_tokens preamble_chars.1 hver.1 hu.2.1 (b64EncodeList_not_mem _).1
      postamble_chars.1
  · exact b64_roundtrip _ (fun x hx => c.sign_bytes k (utf8Bytes b) x hx)
  · exact verify_sign_eq hver hu hkey

theorem c1_round_trip_witness :
    splitOnce '\n' (sign toyCrypto toyVer ("hello".toList) 0 ("u".toList)) =
      some (PROVENANCE_PREAMBLE ++ ' ' :: toyVer ++ ' ' :: "u".toList ++
        ' ' :: b64EncodeList (toyCrypto.sign 0 (utf8Bytes ("hello".toList))) ++
        ' ' :: PROVENANCE_POSTAMBLE, "hello".toList) ∧
    splitChar ' ' (PROVENANCE_PREAMBLE ++ ' ' :: toyVer ++ ' ' :: "u".toList ++
        ' ' :: b64EncodeList (toyCrypto.sign 0 (utf8Bytes ("hello".toList))) ++
        ' ' :: PROVENANCE_POSTAMBLE) =
      [PROVENANCE_PREAMBLE, toyVer, "u".toList,
        b64EncodeList (toyCrypto.sign 0 (utf8Bytes ("hello".toList))), PROVENANCE_POSTAMBLE] ∧
    b64DecodeList (b64EncodeList (toyCrypto.sign 0 (utf8Bytes ("hello".toList)))) =
      some (toyCrypto.sign 0 (utf8Bytes ("hello".toList))) ∧
    verify toyCrypto toyFetch toyVer (sign toyCrypto toyVer ("hello".toList) 0 ("u".toList)) =
      (VerifyResult.ok ⟨"u".toList, toyCrypto.publicKey 0⟩, "hello".toList) :=
  c1_round_trip toyCrypto toyFetch toyVer ("hello".toList) ("u".toList) 0
    (by decide) (by decide) (by decide)

/-- C2 fails as stated: for the unsigned body "x\ny" (which contains a
line break) and a single signer whose verification succeeds, `verify_all`
does not return exactly one result with the original body as remainder —
after peeling the genuine envelope it keeps peeling lines of the body
itself, recording a spurious malformed-header failure and returning
remainder "y". -/
theorem c2_chain_length_counterexample :
    ¬ (verify_all toyCrypto toyFetch toyVer
        (sign toyCrypto toyVer ("x\ny".toList) 0 ("u".toList)) =
      ([VerifyResult.ok ⟨"u".toList, toyCrypto.publicKey 0⟩], "x\ny".toList)) := by decide

/-- C2, amended: for an unsigned body containing no line break, a chain
of signers (head of the list signing last, hence outermost) whose urls
are token-shaped and resolve to the respective public keys yields a
`verify_all` result with exactly one success record per signer, ordered
outermost first, and final remainder equal to the original body. -/
theorem c2_chain_length (c : Crypto) (fetch : List Char → Option SignerDetailsFromServer)
    (ver : List Char) (signers : List (Nat × List Char)) (b : List Char)
    (hver : ' ' ∉ ver ∧ '\n' ∉ ver) (hb : '\n' ∉ b)
    (hs : ∀ ku ∈ signers, ku.2 ≠ [] ∧ ' ' ∉ ku.2 ∧ '\n' ∉ ku.2 ∧
      get_verifying_key_from_url c fetch ku.2 = some (c.publicKey ku.1)) :
    verify_all c fetch ver (chainSign c ver signers b) =
      (signers.map (fun ku => VerifyResult.ok ⟨ku.2, c.publicKey ku.1⟩), b) := by
  induction signers with
  | nil =>
    show verify_all c fetch ver b = _
    simp only [List.map_nil]
    exact verify_all_break (splitOnce_eq_none.mpr hb)
  | cons ku rest ih =>
    obtain ⟨k, u⟩ := ku
    have hhead := hs (k, u) (by simp)
    have htail := fun x hx => hs x (List.mem_cons_of_mem _ hx)
    have hsplit : splitOnce '\n' (sign c ver (chainSign c ver rest b) k u) =
        some (PROVENANCE_PREAMBLE ++ ' ' :: ver ++ ' ' :: u ++
          ' ' :: b64EncodeList (c.sign k (utf8Bytes (chainSign c ver rest b))) ++
          ' ' :: PROVENANCE_POSTAMBLE, chainSign c ver rest b) := by
      show splitOnce '\n' (format_doc ver u
        (b64EncodeList (c.sign k (utf8Bytes (chainSign c ver rest b))))
        (chainSign c ver rest b)) = _
      rw [format_doc_eq]
      exact header_newline_split preamble_chars.2 hver.2 hhead.2.2.1
        (b64EncodeList_not_mem _).2 postamble_chars.2
    show verify_all c fetch ver (sign c ver (chainSign c ver rest b) k u) = _
    rw [verify_all_peel hsplit]
    rw [verify_sign_eq hver ⟨hhead.1, hhead.2.1, hhead.2.2.1⟩ hhead.2.2.2]
    rw [ih htail]
    simp

theorem c2_chain_length_witness :
    '\n' ∉ ("doc".toList) ∧
    verify_all toyCrypto toyFetch toyVer
        (chainSign toyCrypto toyVer [(0, "u".toList)] ("doc".toList)) =
      ([(0, "u".toList)].map
          (fun ku => VerifyResult.ok ⟨ku.2, toyCrypto.publicKey ku.1⟩), "doc".toList) :=
  ⟨by decide,
    c2_chain_length toyCrypto toyFetch toyVer [(0, "u".toList)] ("doc".toList)
      (by decide) (by decide) (by decide)⟩

/-- C7: in a five-token header whose url and signature tokens are
non-empty (and all tokens space- and newline-free), a preamble unequal to
the fixed marker yields the bad-preamble error regardless of the other
tokens; with the preamble correct, a version unequal to the compiled-in
version yields the bad-version error; with both correct, a postamble
unequal to the fixed marker yields the bad-postamble error.  The order of
hypotheses mirrors the order in which the source checks the tokens. -/
theorem c7_marker_sensitivity (c : Crypto) (fetch : List Char → Option SignerDetailsFromServer)
    (ver p v u s q body : List Char)
    (hp : ' ' ∉ p ∧ '\n' ∉ p) (hv : ' ' ∉ v ∧ '\n' ∉ v) (hu : ' ' ∉ u ∧ '\n' ∉ u)
    (hsg : ' ' ∉ s ∧ '\n' ∉ s) (hq : ' ' ∉ q ∧ '\n' ∉ q)
    (hune : u ≠ []) (hsne : s ≠ []) :
    (p ≠ PROVENANCE_PREAMBLE →
      verify c fetch ver (p ++ ' ' :: v ++ ' ' :: u ++ ' ' :: s ++ ' ' :: q ++ '\n' :: body) =
        (VerifyResult.error VerifyError.badPreamble, body)) ∧
    (p = PROVENANCE_PREAMBLE → v ≠ ver →
      verify c fetch ver (p ++ ' ' :: v ++ ' ' :: u ++ ' ' :: s ++ ' ' :: q ++ '\n' :: body) =
        (VerifyResult.error VerifyError.badVersion, body)) ∧
    (p = PROVENANCE_PREAMBLE → v = ver → q ≠ PROVENANCE_POSTAMBLE →
      verify c fetch ver (p ++ ' ' :: v ++ ' ' :: u ++ ' ' :: s ++ ' ' :: q ++ '\n' :: body) =
        (VerifyResult.error VerifyError.badPostamble, body)) := by
  rw [verify_header hp hv hu hsg hq]
  refine ⟨?_, ?_, ?_⟩
  · intro hpre
    unfold verifyTokens
    rw [if_neg (fun hh => hune hh), if_neg (fun hh => hsne hh), if_pos hpre]
  · intro hpre hvne
    unfold verifyTokens
    rw [if_neg (fun hh => hune hh), if_neg (fun hh => hsne hh),
      if_neg (fun hh : p ≠ PROVENANCE_PREAMBLE => hh hpre), if_pos hvne]
  · intro hpre hveq hqne
    unfold verifyTokens
    rw [if_neg (fun hh => hune hh), if_neg (fun hh => hsne hh),
      if_neg (fun hh : p ≠ PROVENANCE_PREAMBLE => hh hpre),
      if_neg (fun hh : v ≠ ver => hh hveq), if_pos hqne]

theorem c7_marker_sensitivity_witness :
    ("X".toList ≠ PROVENANCE_PREAMBLE) ∧
    verify toyCrypto toyFetch toyVer ("X".toList ++ ' ' :: toyVer ++ ' ' :: "u".toList ++
        ' ' :: "AA==".toList ++ ' ' :: PROVENANCE_POSTAMBLE ++ '\n' :: "b".toList) =
      (VerifyResult.error VerifyError.badPreamble, "b".toList) :=
  ⟨by decide,
    (c7_marker_sensitivity toyCrypto toyFetch toyVer ("X".toList) toyVer ("u".toList)
      ("AA==".toList) PROVENANCE_POSTAMBLE ("b".toList) (by decide) (by decide) (by decide)
      (by decide) (by decide) (by decide) (by decide)).1 (by decide)⟩

/-- C8: the encoder emits exactly the preamble marker, the protocol
version, the url, the URL-safe padded base64 encoding of the signature
bytes and the postamble marker, joined by single spaces, followed by one
newline and the body byte for byte; `sign` is that format applied to the
base64 encoding of the computed signature; and every character of the
base64 encoding is drawn from the URL-safe alphabet or is the padding
character. -/
theorem c8_encoding_format (c : Crypto) (ver u b : List Char) (sbytes : List Nat) (k : Nat) :
    format_doc ver u (b64EncodeList sbytes) b =
      PROVENANCE_PREAMBLE ++ ' ' :: ver ++ ' ' :: u ++ ' ' :: b64EncodeList sbytes ++
        ' ' :: PROVENANCE_POSTAMBLE ++ '\n' :: b ∧
    sign c ver b k u = format_doc ver u (b64EncodeList (c.sign k (utf8Bytes b))) b ∧
    (∀ ch ∈ b64EncodeList sbytes, ch ∈ b64Alphabet ∨ ch = '=') := by
  refine ⟨rfl, rfl, ?_⟩
  intro ch hch
  rcases b64EncodeList_chars hch with h | ⟨n, hn⟩
  · exact Or.inr h
  · exact Or.inl (hn ▸ b64Char_mem n)

theorem c8_encoding_format_witness :
    format_doc toyVer ("u".toList) (b64EncodeList [0]) ("b".toList) =
      PROVENANCE_PREAMBLE ++ ' ' :: toyVer ++ ' ' :: "u".toList ++
        ' ' :: b64EncodeList [0] ++ ' ' :: PROVENANCE_POSTAMBLE ++ '\n' :: "b".toList ∧
    ('A' ∈ b64EncodeList [0] ∧ ('A' ∈ b64Alphabet ∨ 'A' = '=')) :=
  ⟨(c8_encoding_format toyCrypto toyVer ("u".toList) ("b".toList) [0] 0).1,
    by decide,
    (c8_encoding_format toyCrypto toyVer ("u".toList) ("b".toList) [0] 0).2.2 'A' (by decide)⟩

/-- C9 fails as stated: the success record contains no metadata.  Two key
directories whose responses differ only in their metadata produce
identical `verify` outputs on the same successfully verified document, so
the returned record cannot contain the metadata of the response; the
record carries only the verification url and the verification key
(`SignerDetails` has exactly those two fields). -/
theorem c9_success_record_counterexample :
    toyFetch ("u".toList) ≠ toyFetchMeta ("u".toList) ∧
    verify toyCrypto toyFetch toyVer (sign toyCrypto toyVer ("b".toList) 0 ("u".toList)) =
      verify toyCrypto toyFetchMeta toyVer
        (sign toyCrypto toyVer ("b".toList) 0 ("u".toList)) ∧
    (verify toyCrypto toyFetch toyVer
        (sign toyCrypto toyVer ("b".toList) 0 ("u".toList))).1 =
      VerifyResult.ok ⟨"u".toList, 0⟩ := by decide

/-- C9, amended: on full success the returned record contains the
envelope's verification url and the verification key resolved through the
key directory; the metadata of the key-directory response is discarded by
`get_verifying_key_from_url` and appears in no field of the record. -/
theorem c9_success_record (c : Crypto) (fetch : List Char → Option SignerDetailsFromServer)
    (ver p v u s q body : List Char) (sig : List Nat) (vk : Nat)
    (hp : ' ' ∉ p ∧ '\n' ∉ p) (hv : ' ' ∉ v ∧ '\n' ∉ v) (hu : ' ' ∉ u ∧ '\n' ∉ u)
    (hsg : ' ' ∉ s ∧ '\n' ∉ s) (hq : ' ' ∉ q ∧ '\n' ∉ q)
    (hune : u ≠ []) (hsne : s ≠ [])
    (hpre : p = PROVENANCE_PREAMBLE) (hveq : v = ver) (hpost : q = PROVENANCE_POSTAMBLE)
    (hsig : base64SignatureTryInto s = some sig)
    (hkey : get_verifying_key_from_url c fetch u = some vk)
    (hok : c.verify vk (utf8Bytes body) sig = true) :
    verify c fetch ver (p ++ ' ' :: v ++ ' ' :: u ++ ' ' :: s ++ ' ' :: q ++ '\n' :: body) =
      (VerifyResult.ok ⟨u, vk⟩, body) := by
  rw [verify_header hp hv hu hsg hq]
  unfold verifyTokens
  rw [if_neg (fun hh => hune hh), if_neg (fun hh => hsne hh),
    if_neg (fun hh : p ≠ PROVENANCE_PREAMBLE => hh hpre),
    if_neg (fun hh : v ≠ ver => hh hveq),
    if_neg (fun hh : q ≠ PROVENANCE_POSTAMBLE => hh hpost), hsig, hkey]
  simp [hok]

theorem c9_success_record_witness :
    verify toyCrypto toyFetch toyVer (PROVENANCE_PREAMBLE ++ ' ' :: toyVer ++
        ' ' :: "u".toList ++ ' ' :: b64EncodeList (List.replicate 64 0) ++
        ' ' :: PROVENANCE_POSTAMBLE ++ '\n' :: "b".toList) =
      (VerifyResult.ok ⟨"u".toList, 0⟩, "b".toList) :=
  c9_success_record toyCrypto toyFetch toyVer PROVENANCE_PREAMBLE toyVer ("u".toList)
    (b64EncodeList (List.replicate 64 0)) PROVENANCE_POSTAMBLE ("b".toList)
    (List.replicate 64 0) 0 (by decide) (by decide) (by decide) (by decide) (by decide)
    (by decide) (by decide) rfl rfl rfl (by decide) (by decide) (by decide)

end Provenance
